import Mathlib

/-!
Verification of the event-selection and counter orchestration engine of the
simpleperf-based profiler (files `event_selection_set.cpp` and `cmd_stat.cpp`).

The C++ code is shallowly embedded: each modelled C++ function becomes a Lean
function over explicit state, and every interaction with the outside world
(event-name parsing, the `perf_event_open` syscall, sysfs lookups, capability
probes) is a field of an explicit environment record `Env`, so the theorems
quantify over all possible behaviours of those externals.

Machine integers (`uint64_t` bitmasks and counters) are modelled as `Nat`;
where overflow can occur (counter addition) the reduction `% 2^64` is written
explicitly.
-/

namespace SimpleperfModel

/-- Kernel event-type code for tracepoint events (`PERF_TYPE_TRACEPOINT` from
the kernel ABI). -/
def PERF_TYPE_TRACEPOINT : Nat := 2

/-- Kernel raw event-type code (`PERF_TYPE_RAW`). -/
def PERF_TYPE_RAW : Nat := 4

/-- Branch-sampling bit `PERF_SAMPLE_BRANCH_ANY` (kernel ABI, bit 3). -/
def PERF_SAMPLE_BRANCH_ANY : Nat := 8

/-- Branch-sampling bit `PERF_SAMPLE_BRANCH_ANY_CALL` (kernel ABI, bit 4). -/
def PERF_SAMPLE_BRANCH_ANY_CALL : Nat := 16

/-- Branch-sampling bit `PERF_SAMPLE_BRANCH_ANY_RETURN` (kernel ABI, bit 5). -/
def PERF_SAMPLE_BRANCH_ANY_RETURN : Nat := 32

/-- Branch-sampling bit `PERF_SAMPLE_BRANCH_IND_CALL` (kernel ABI, bit 6). -/
def PERF_SAMPLE_BRANCH_IND_CALL : Nat := 64

/-- Sample-type bit `PERF_SAMPLE_BRANCH_STACK` (kernel ABI, bit 11). -/
def PERF_SAMPLE_BRANCH_STACK : Nat := 2048

/-- Default sample period for tracepoint events
(`DEFAULT_SAMPLE_PERIOD_FOR_TRACEPOINT_EVENT`, declared in a header outside
`src/`; the concrete value is immaterial to every theorem below). -/
def DEFAULT_SAMPLE_PERIOD_FOR_TRACEPOINT_EVENT : Nat := 1

/-- Default sample frequency for non-tracepoint events
(`DEFAULT_SAMPLE_FREQ_FOR_NONTRACEPOINT_EVENT`, declared in a header outside
`src/`; the concrete value is immaterial to every theorem below). -/
def DEFAULT_SAMPLE_FREQ_FOR_NONTRACEPOINT_EVENT : Nat := 4000

/-- An event type as produced by the (external) event registry: name, kernel
type code, and the per-PMU attributes the modelled code consults
(`IsPmuEvent`, `IsHardwareEvent`, `GetPmuCpumask`). -/
structure EventType where
  name : String
  typeCode : Nat
  isPmuEvent : Bool
  isHardwareEvent : Bool
  pmuCpumask : List Int
  deriving DecidableEq, Repr

/-- `EventTypeAndModifier`: result of the external `ParseEventType`.  `name`
is the full event name including the modifier suffix; the boolean fields are
the parsed modifier. -/
structure EventTypeAndModifier where
  name : String
  eventType : EventType
  modifier : String
  exclude_user : Bool
  exclude_kernel : Bool
  exclude_hv : Bool
  exclude_host : Bool
  exclude_guest : Bool
  precise_ip : Nat
  deriving DecidableEq, Repr

/-- The kernel `perf_event_attr` descriptor, restricted to the fields the
modelled functions read or write.  `samplePeriodOrFreq` models the C union of
`sample_period` and `sample_freq` (one storage location; `freq` selects the
interpretation). -/
structure PerfEventAttr where
  typeCode : Nat
  config : Nat
  sample_type : Nat
  freq : Bool
  samplePeriodOrFreq : Nat
  exclude_user : Bool
  exclude_kernel : Bool
  exclude_hv : Bool
  exclude_host : Bool
  exclude_guest : Bool
  precise_ip : Nat
  mmap : Bool
  comm : Bool
  mmap2 : Bool
  disabled : Bool
  branch_sample_type : Nat
  aux_watermark : Nat
  deriving DecidableEq, Repr

/-- An opened kernel event fd, identified by the event name it was opened for
and its (tid, cpu) pairing — exactly the data `EventFd::OpenEventFile`
receives in the modelled non-x86 code path. -/
structure EventFd where
  name : String
  tid : Int
  cpu : Int
  deriving DecidableEq, Repr

/-- One `EventSelection`: the parsed event, its attribute, the opened fds, an
optional tracepoint filter and the PMU-allowed cpu override. -/
structure EventSelection where
  eventTypeModifier : EventTypeAndModifier
  event_attr : PerfEventAttr
  event_fds : List EventFd
  tracepoint_filter : String
  allowed_cpus : List Int
  deriving DecidableEq, Repr

/-- One `EventSelectionGroup`: an ordered list of selections plus the
group-local cpu list and the group-local sample-rate flag. -/
structure EventSelectionGroup where
  selections : List EventSelection
  cpus : List Int
  set_sample_rate : Bool
  deriving DecidableEq, Repr

/-- `SampleRate` (declared in a header outside `src/`): the modelled code
only reads `sample_freq`, `sample_period` and `UseFreq()`; `UseFreq` is kept
as a stored boolean since its definition is not in `src/`. -/
structure SampleRate where
  sample_freq : Nat
  sample_period : Nat
  use_freq : Bool
  deriving DecidableEq, Repr

/-- `SampleRate.UseFreq()`. -/
def SampleRate.UseFreq (r : SampleRate) : Bool := r.use_freq

/-- An address filter; the modelled code (`ApplyAddrFilters`) only needs to
know whether the filter is a range filter (consuming two ETM filter slots)
and its rendered `ToString` form. -/
structure AddrFilter where
  isRange : Bool
  rendered : String
  deriving DecidableEq, Repr

/-- The mutable state of an `EventSelectionSet` that the modelled member
functions touch: the groups, the remembered defaults (`sample_rate_`,
`cpus_`), `for_stat_cmd_`, the aux-trace flag and the address filters. -/
structure SelState where
  for_stat_cmd : Bool
  groups : List EventSelectionGroup
  sample_rate : Option SampleRate
  cpus : Option (List Int)
  has_aux_trace : Bool
  addr_filters : List AddrFilter
  deriving DecidableEq, Repr

/-- The environment: every external function the modelled code calls.  A
theorem quantified over `Env` holds for every behaviour of the parser, of the
kernel and of the capability probes. -/
structure Env where
  /-- `ParseEventType` (event_type.cpp, outside `src/`). -/
  parse : String → Option EventTypeAndModifier
  /-- `CreateDefaultPerfEventAttr` (event_attr.cpp, outside `src/`). -/
  defaultAttr : EventType → PerfEventAttr
  /-- `IsEtmEventType` (ETMRecorder, outside `src/`). -/
  isEtmType : Nat → Bool
  /-- whether `ETMRecorder::CheckEtmSupport()` returns ok. -/
  etmSupportOk : Bool
  /-- `ETMRecorder::SetEtmPerfEventAttr` (mutates the attr). -/
  setEtmAttr : PerfEventAttr → PerfEventAttr
  /-- `IsMmap2Supported()`. -/
  mmap2Supported : Bool
  /-- `IsEventAttrSupported(attr, name)`. -/
  attrSupported : PerfEventAttr → String → Bool
  /-- `IsBranchSamplingSupported()`. -/
  branchSamplingSupported : Bool
  /-- success of `EventFd::OpenEventFile(attr-of-name, tid, cpu, leader)`;
  the outcome may depend on the event name, the (tid, cpu) pair and the
  group leader passed. -/
  openOk : String → Int → Int → Option EventFd → Bool
  /-- `GetOnlineCpus()`. -/
  onlineCpus : List Int
  /-- success of `EventFd::SetFilter(str)` on a given fd. -/
  setFilterOk : EventFd → String → Bool
  /-- `ETMRecorder::GetAddrFilterPairs()`. -/
  etmFilterPairs : Nat

/-- All selections of a state, in group order (the iteration order every
`for (group) for (selection)` loop in the source uses). -/
def SelState.allSelections (st : SelState) : List EventSelection :=
  st.groups.flatMap (fun g => g.selections)

/-- `EventSelectionSet::BuildAndCheckEventSelection` (event_selection_set.cpp
lines 207-294), as a function from the current state to the built selection;
`none` models `return false`.  Faithful to the source order: parse; the
stat-mode cpu-clock/task-clock modifier rejection; default attr + modifier
stamping; the ETM branch; the sampling-mode branch (recording only) with the
deferred default sample frequency; the `check` probe; and the uniqueness scan
over the already-committed groups.  The attribute computation (default attr,
modifier stamping, ETM watermark, sampling-mode branch) is factored into
`buildSelectionAttr`, which returns the attribute together with the
`set_default_sample_freq` flag. -/
def buildSelectionAttr (env : Env) (st : SelState) (etm : EventTypeAndModifier)
    (first_event : Bool) : PerfEventAttr × Bool :=
  let attr1 : PerfEventAttr :=
    { env.defaultAttr etm.eventType with
      exclude_user := etm.exclude_user
      exclude_kernel := etm.exclude_kernel
      exclude_hv := etm.exclude_hv
      exclude_host := etm.exclude_host
      exclude_guest := etm.exclude_guest
      precise_ip := etm.precise_ip }
  let attr2 :=
    if env.isEtmType etm.eventType.typeCode then
      { env.setEtmAttr attr1 with aux_watermark := 4096 }
    else attr1
  -- sampling-mode branch (`!for_stat_cmd_`); the boolean is
  -- `set_default_sample_freq`
  if ¬ st.for_stat_cmd then
    let base :=
      if etm.eventType.typeCode = PERF_TYPE_TRACEPOINT then
        ({ attr2 with
           freq := false
           samplePeriodOrFreq := DEFAULT_SAMPLE_PERIOD_FOR_TRACEPOINT_EVENT }, false)
      else if env.isEtmType etm.eventType.typeCode then
        ({ attr2 with freq := false, samplePeriodOrFreq := 1, disabled := true }, false)
      else
        ({ attr2 with freq := true, samplePeriodOrFreq := 1 }, true)
    if first_event then
      ({ base.1 with
         mmap := true
         comm := true
         mmap2 := (if env.mmap2Supported then true else base.1.mmap2) }, base.2)
    else base
  else (attr2, false)

/-- `EventSelectionSet::BuildAndCheckEventSelection` (event_selection_set.cpp
lines 207-294): parse, the stat-mode cpu-clock/task-clock modifier
rejection, the ETM-support check, the attribute construction
(`buildSelectionAttr`), the `check` probe, the deferred default sample
frequency, and the uniqueness scan over the already-committed groups. -/
def buildAndCheckEventSelection (env : Env) (st : SelState) (event_name : String)
    (first_event : Bool) (check : Bool) : Option EventSelection :=
  match env.parse event_name with
  | none => none
  | some etm =>
    if st.for_stat_cmd ∧
        (etm.eventType.name = "cpu-clock" ∨ etm.eventType.name = "task-clock") ∧
        (etm.exclude_user ∨ etm.exclude_kernel) then
      none
    else if env.isEtmType etm.eventType.typeCode ∧ ¬ env.etmSupportOk then
      none
    else
      let pre := buildSelectionAttr env st etm first_event
      if check ∧ ¬ etm.eventType.isPmuEvent ∧ ¬ env.attrSupported pre.1 etm.name then
        none
      else
        let attr4 :=
          if pre.2 then
            { pre.1 with samplePeriodOrFreq := DEFAULT_SAMPLE_FREQ_FOR_NONTRACEPOINT_EVENT }
          else pre.1
        if st.groups.any (fun g => g.selections.any
            (fun s => s.eventTypeModifier.name = etm.name)) then
          none
        else
          some { eventTypeModifier := etm, event_attr := attr4, event_fds := [],
                 tracepoint_filter := "", allowed_cpus := [] }

/-- `EventSelectionSet::SetSampleRateForGroup` (lines 520-532). -/
def setSampleRateForGroup (g : EventSelectionGroup) (rate : SampleRate) :
    EventSelectionGroup :=
  { g with
    set_sample_rate := true
    selections := g.selections.map (fun s =>
      if rate.UseFreq then
        { s with event_attr :=
            { s.event_attr with freq := true, samplePeriodOrFreq := rate.sample_freq } }
      else
        { s with event_attr :=
            { s.event_attr with freq := false, samplePeriodOrFreq := rate.sample_period } }) }

/-- `EventSelectionSet::SetSampleRateForNewEvents` (lines 502-509). -/
def setSampleRateForNewEvents (st : SelState) (rate : SampleRate) : SelState :=
  { st with
    sample_rate := some rate
    groups := st.groups.map (fun g =>
      if g.set_sample_rate then g else setSampleRateForGroup g rate) }

/-- Bitwise-or of the sample types of a list of selections. -/
def sampleTypeUnionOf (sels : List EventSelection) : Nat :=
  sels.foldl (fun acc s => acc ||| s.event_attr.sample_type) 0

/-- Bitwise-or of the sample types of all selections, i.e. the first loop of
`EventSelectionSet::UnionSampleType` (lines 460-466). -/
def sampleTypeUnion (st : SelState) : Nat :=
  st.allSelections.foldl (fun acc s => acc ||| s.event_attr.sample_type) 0

/-- `EventSelectionSet::UnionSampleType` (lines 460-472): compute the union
and write it back to every selection. -/
def unionSampleType (st : SelState) : SelState :=
  let t := sampleTypeUnion st
  { st with groups := st.groups.map (fun g =>
      { g with selections := g.selections.map (fun s =>
          { s with event_attr := { s.event_attr with sample_type := t } }) }) }

/-- The loop body of `EventSelectionSet::AddEventGroup` (lines 312-329):
build each selection in turn, threading `first_event` / `first_in_group`,
record whether any event is an ETM event (`has_aux_trace_`) and stamp the
PMU cpumask on the first selection of the group. -/
def buildGroupSelections (env : Env) (st : SelState) (check : Bool) :
    List String → Bool → Bool → Option (List EventSelection × Bool)
  | [], _, _ => some ([], false)
  | event_name :: rest, first_event, first_in_group =>
    match buildAndCheckEventSelection env st event_name first_event check with
    | none => none
    | some selection =>
      let aux := env.isEtmType selection.event_attr.typeCode
      let selection :=
        if first_in_group ∧ selection.eventTypeModifier.eventType.isPmuEvent then
          { selection with
            allowed_cpus := selection.eventTypeModifier.eventType.pmuCpumask }
        else selection
      match buildGroupSelections env st check rest false false with
      | none => none
      | some (sels, aux2) => some (selection :: sels, aux || aux2)

/-- `EventSelectionSet::AddEventGroup` (lines 308-339).  On any build failure
the function returns `none` and the caller's state is unchanged (in the
source, `groups_` is only appended to at the end; the loop mutates nothing
but the local group and the `has_aux_trace_` flag). -/
def addEventGroup (env : Env) (st : SelState) (event_names : List String)
    (check : Bool) : Option SelState :=
  match buildGroupSelections env st check event_names st.groups.isEmpty true with
  | none => none
  | some (sels, aux) =>
    let group : EventSelectionGroup := { selections := sels, cpus := [], set_sample_rate := false }
    let group :=
      match st.sample_rate with
      | some rate => setSampleRateForGroup group rate
      | none => group
    let group :=
      match st.cpus with
      | some cs => { group with cpus := cs }
      | none => group
    let st1 := { st with
                 groups := st.groups ++ [group]
                 has_aux_trace := st.has_aux_trace || aux }
    some (unionSampleType st1)

/-- `EventSelectionSet::SetBranchSampling` (lines 534-557): validate the
mask, require the capability, then stamp every selection.  Returns the C++
boolean result together with the resulting state (unchanged on failure,
since the source returns before the loop). -/
def setBranchSampling (env : Env) (st : SelState) (branch_sample_type : Nat) :
    Bool × SelState :=
  if branch_sample_type ≠ 0 ∧
      branch_sample_type &&& (PERF_SAMPLE_BRANCH_ANY ||| PERF_SAMPLE_BRANCH_ANY_CALL |||
        PERF_SAMPLE_BRANCH_ANY_RETURN ||| PERF_SAMPLE_BRANCH_IND_CALL) = 0 then
    (false, st)
  else if branch_sample_type ≠ 0 ∧ ¬ env.branchSamplingSupported then
    (false, st)
  else
    (true,
     { st with groups := st.groups.map (fun g =>
        { g with selections := g.selections.map (fun s =>
            { s with event_attr :=
                { s.event_attr with
                  sample_type :=
                    if branch_sample_type ≠ 0 then
                      s.event_attr.sample_type ||| PERF_SAMPLE_BRANCH_STACK
                    else
                      s.event_attr.sample_type &&& (2 ^ 64 - 1 - PERF_SAMPLE_BRANCH_STACK)
                  branch_sample_type := branch_sample_type } }) }) })

/-- The loop of `EventSelectionSet::OpenEventFilesOnGroup` (lines 676-714,
generic non-x86 path): open one fd per selection for the given (tid, cpu),
the first successfully opened fd becoming the group leader passed to the
subsequent opens.  Returns the list of `OpenEventFile` calls made (event
name and leader passed) together with `some fds` when every open succeeded,
`none` when some open failed (the local fds are then discarded). -/
def openSelectionsGo (env : Env) (tid cpu : Int) :
    Option EventFd → List EventSelection →
    List (String × Option EventFd) × Option (List EventFd)
  | _, [] => ([], some [])
  | leader, s :: rest =>
    let nm := s.eventTypeModifier.name
    if env.openOk nm tid cpu leader then
      let fd : EventFd := { name := nm, tid := tid, cpu := cpu }
      let newLeader := match leader with
        | none => some fd
        | some l => some l
      let tailResult := openSelectionsGo env tid cpu newLeader rest
      ((nm, leader) :: tailResult.1, tailResult.2.map (fun fds => fd :: fds))
    else
      ([(nm, leader)], none)

/-- `EventSelectionSet::OpenEventFilesOnGroup`: on success every selection
receives its fd (the source moves `event_fds[i]` into `selections[i]`); on
failure the group is returned unchanged by the caller. -/
def openEventFilesOnGroup (env : Env) (g : EventSelectionGroup) (tid cpu : Int) :
    Option EventSelectionGroup :=
  match (openSelectionsGo env tid cpu none g.selections).2 with
  | none => none
  | some fds =>
    some { g with selections :=
      (g.selections.zip fds).map (fun p =>
        { p.1 with event_fds := p.1.event_fds ++ [p.2] }) }

/-- The trace of `OpenEventFile` calls `OpenEventFilesOnGroup` performs. -/
def openCallsOnGroup (env : Env) (g : EventSelectionGroup) (tid cpu : Int) :
    List (String × Option EventFd) :=
  (openSelectionsGo env tid cpu none g.selections).1

/-- The per-group double loop of `OpenEventFilesForThreads` (lines 760-768):
try every (tid, cpu) pair, keeping the group state and counting successes;
failed pairs leave the group untouched. -/
def openGroupForPairs (env : Env) (g : EventSelectionGroup)
    (tids cpus : List Int) : EventSelectionGroup × Nat :=
  tids.foldl
    (fun acc tid =>
      cpus.foldl
        (fun acc2 cpu =>
          match openEventFilesOnGroup env acc2.1 tid cpu with
          | some g2 => (g2, acc2.2 + 1)
          | none => acc2)
        acc)
    (g, 0)

/-- The cpu-list selection of `OpenEventFilesForThreads` (lines 748-755):
the first selection's PMU-allowed cpumask when non-empty, else the group's
cpu list, else the online cpus.  (The source indexes `selections[0]`
unconditionally; an empty selection list follows the group-cpus path here.) -/
def effectiveCpus (g : EventSelectionGroup) (online : List Int) : List Int :=
  let pcpus :=
    match g.selections.head? with
    | some s => if s.allowed_cpus ≠ [] then s.allowed_cpus else g.cpus
    | none => g.cpus
  if pcpus = [] then online else pcpus

/-- The `check_if_cpus_online` lambda of `OpenEventFilesForThreads`
(lines 734-745). -/
def checkIfCpusOnline (online cpus : List Int) : Bool :=
  cpus = [-1] ∨ ∀ c ∈ cpus, c ∈ online

/-- `EventSelectionSet::ApplyAddrFilters` (lines 789-832). -/
def applyAddrFilters (env : Env) (st : SelState) : Bool :=
  if st.addr_filters = [] then true
  else if ¬ st.has_aux_trace then false
  else
    let required := st.addr_filters.foldl
      (fun acc f => acc + (if f.isRange then 2 else 1)) 0
    if env.etmFilterPairs * 2 < required then false
    else
      let filterStr := (st.addr_filters.map AddrFilter.rendered).intersperse "," |>.foldl
        (fun acc s => acc ++ s) ""
      st.groups.all (fun g => g.selections.all (fun s =>
        if env.isEtmType s.eventTypeModifier.eventType.typeCode then
          s.event_fds.all (fun fd => env.setFilterOk fd filterStr)
        else true))

/-- `EventSelectionSet::ApplyTracepointFilters` (lines 834-847). -/
def applyTracepointFilters (env : Env) (st : SelState) : Bool :=
  st.groups.all (fun g => g.selections.all (fun s =>
    if s.tracepoint_filter ≠ "" then
      s.event_fds.all (fun fd => env.setFilterOk fd s.tracepoint_filter)
    else true))

/-- `EventSelectionSet::ApplyFilters` (lines 785-787). -/
def applyFilters (env : Env) (st : SelState) : Bool :=
  applyAddrFilters env st && applyTracepointFilters env st

/-- The per-group step of `OpenEventFilesForThreads` (lines 747-781): pick
the cpu list, check it is online, run every (tid, cpu) pair, and fail when
the group ends with zero successes. -/
def openGroupsGo (env : Env) (tids : List Int) :
    List EventSelectionGroup → Option (List EventSelectionGroup)
  | [] => some []
  | g :: rest =>
    let cpusForGroup := effectiveCpus g env.onlineCpus
    let needCheck :=
      (match g.selections.head? with
       | some s => if s.allowed_cpus ≠ [] then s.allowed_cpus else g.cpus
       | none => g.cpus) ≠ []
    if needCheck ∧ ¬ checkIfCpusOnline env.onlineCpus cpusForGroup then none
    else
      let res := openGroupForPairs env g tids cpusForGroup
      if res.2 = 0 then none
      else
        match openGroupsGo env tids rest with
        | none => none
        | some gs => some (res.1 :: gs)

/-- `EventSelectionSet::OpenEventFilesForThreads` (lines 731-783): open every
group, then apply the deferred filters; `none` models `return false` (the
source keeps the fds it opened in that case; no claim below depends on the
state after a failed open). -/
def openEventFilesForThreads (env : Env) (st : SelState) (tids : List Int) :
    Option SelState :=
  match openGroupsGo env tids st.groups with
  | none => none
  | some gs =>
    let st2 := { st with groups := gs }
    if applyFilters env st2 then some st2 else none

/-- A `CounterSummary` (cmd_stat_impl.h, fields as used by the functions in
`cmd_stat.cpp`).  `thread` stands for the `const ThreadInfo*` pointer and is
compared by identity, modelled as a number; `scale` is a `double` in the
source, carried here as an uninterpreted number (the modelled functions only
copy it); `count` is a `uint64_t`. -/
structure CounterSummary where
  type_name : String
  modifier : String
  group_id : Nat
  thread : Nat
  cpu : Int
  count : Nat
  runtime_in_ns : Nat
  scale : Nat
  auto_generated : Bool
  deriving DecidableEq, Repr

/-- `CounterSummaries::FindSummary` (cmd_stat.cpp lines 107-116): first
summary matching (type_name, modifier, thread, cpu); `none` is `nullptr`. -/
def findSummary (summaries : List CounterSummary) (type_name modifier : String)
    (thread : Nat) (cpu : Int) : Option CounterSummary :=
  summaries.find? (fun s =>
    s.type_name = type_name ∧ s.modifier = modifier ∧ s.thread = thread ∧ s.cpu = cpu)

/-- Number of summaries with modifier "u" in a list (termination measure for
`autoGenerateSummariesGo`: the loop appends only modifier-"" summaries, and
only when visiting a modifier-"u" one). -/
def countU (l : List CounterSummary) : Nat :=
  (l.filter (fun s => s.modifier = "u")).length

/-- The summary `AutoGenerateSummaries` synthesizes from a "u" summary `s`
and its matching "k" summary `other` (cmd_stat.cpp lines 125-126): count is
the `uint64_t` sum, and the summary is flagged auto-generated. -/
def mkAutoSummary (s other : CounterSummary) : CounterSummary :=
  { type_name := s.type_name, modifier := "", group_id := s.group_id,
    thread := s.thread, cpu := s.cpu,
    count := (s.count + other.count) % 2 ^ 64,
    runtime_in_ns := s.runtime_in_ns, scale := s.scale, auto_generated := true }

/-- The loop of `CounterSummaries::AutoGenerateSummaries` (cmd_stat.cpp
lines 118-131).  `full` is the whole `summaries_` vector (searched by
`FindSummary`), `todo` the suffix from the loop index on; an appended
summary lands at the end of both (the C++ `for` bound `summaries_.size()`
is re-read each iteration, so appended elements are visited too).
`sameTime` is `CounterSummary::IsMonitoredAtTheSameTime` (cmd_stat_impl.h,
outside `src/`), kept as a parameter. -/
def autoGenerateSummariesGo (sameTime : CounterSummary → CounterSummary → Bool) :
    List CounterSummary → List CounterSummary → List CounterSummary
  | full, [] => full
  | full, s :: rest =>
    if s.modifier = "u" then
      match findSummary full s.type_name "k" s.thread s.cpu with
      | some other =>
        if sameTime other s then
          if findSummary full s.type_name "" s.thread s.cpu = none then
            let n := mkAutoSummary s other
            autoGenerateSummariesGo sameTime (full ++ [n]) (rest ++ [n])
          else
            autoGenerateSummariesGo sameTime full rest
        else
          autoGenerateSummariesGo sameTime full rest
      | none => autoGenerateSummariesGo sameTime full rest
    else
      autoGenerateSummariesGo sameTime full rest
  termination_by _ todo => (countU todo, todo.length)
  decreasing_by
    all_goals simp_wf
    · apply Prod.Lex.left
      have hu : countU (rest ++ [mkAutoSummary s other]) = countU rest := by
        simp [countU, List.filter_append, mkAutoSummary]
      have hs : countU (s :: rest) = countU rest + 1 := by
        simp [countU, List.filter_cons, *]
      omega
    all_goals
      have hle : countU rest ≤ countU (s :: rest) := by
        simp only [countU, List.filter_cons]
        split <;> simp
      rcases Nat.lt_or_ge (countU rest) (countU (s :: rest)) with h | h
      · exact Prod.Lex.left _ _ h
      · have : countU rest = countU (s :: rest) := Nat.le_antisymm hle h
        rw [this]
        exact Prod.Lex.right _ (Nat.lt_succ_self _)

/-- `CounterSummaries::AutoGenerateSummaries` (cmd_stat.cpp lines 118-131). -/
def autoGenerateSummaries (sameTime : CounterSummary → CounterSummary → Bool)
    (summaries : List CounterSummary) : List CounterSummary :=
  autoGenerateSummariesGo sameTime summaries summaries

/-- Environment of `CheckHardwareCountersOnCpu` (cmd_stat.cpp lines
903-940): the outcome of each external step on one cpu.  `openOk i` is the
success of the i-th `EventFd::OpenEventFile` call, `readOk i` the success of
reading back the i-th counter, `timeEnabled`/`timeRunning` its reading. -/
structure HwCheckEnv where
  cyclesEventFound : Bool
  workloadSetupOk : Bool
  openOk : Nat → Bool
  workloadRunOk : Bool
  readOk : Nat → Bool
  timeEnabled : Nat → Nat
  timeRunning : Nat → Nat

/-- The open loop of `CheckHardwareCountersOnCpu` (lines 917-926): open
counters `start, start+1, ...` while `rem` remain; returns the number of
`OpenEventFile` calls made and whether all succeeded. -/
def hwOpenRun (env : HwCheckEnv) : Nat → Nat → Nat × Bool
  | _, 0 => (0, true)
  | start, rem + 1 =>
    if env.openOk start then
      let t := hwOpenRun env (start + 1) rem
      (t.1 + 1, t.2)
    else (1, false)

/-- The read loop of `CheckHardwareCountersOnCpu` (lines 930-938): read each
counter in turn; `none` models a failed `ReadCounter` (`return nullopt`),
`some false` a counter with `time_enabled == 0 || time_enabled >
time_running`. -/
def hwReadRun (env : HwCheckEnv) : Nat → Nat → Option Bool
  | _, 0 => some true
  | start, rem + 1 =>
    if ¬ env.readOk start then none
    else if env.timeEnabled start = 0 ∨ env.timeEnabled start > env.timeRunning start then
      some false
    else hwReadRun env (start + 1) rem

/-- `CheckHardwareCountersOnCpu(cpu, counters)` (cmd_stat.cpp lines
903-940), for the single cpu the environment describes.  Returns the
`std::optional<bool>` result paired with the number of `cpu-cycles` events
the function opened pinned to that cpu. -/
def checkHardwareCountersOnCpu (env : HwCheckEnv) (counters : Nat) :
    Option Bool × Nat :=
  if counters = 0 then (some true, 0)
  else if ¬ env.cyclesEventFound then (none, 0)
  else if ¬ env.workloadSetupOk then (none, 0)
  else
    let opens := hwOpenRun env 0 counters
    if ¬ opens.2 then (some false, opens.1)
    else if ¬ env.workloadRunOk then (none, opens.1)
    else (hwReadRun env 0 counters, opens.1)

/-- `StatCommand::CheckHardwareCounterMultiplexing` (cmd_stat.cpp lines
1101-1117): walk the (cpu, requested-hardware-event-count) entries of
`GetHardwareCountersForCpus()`, run the check on each, and warn (and stop)
at the first definite failure.  Returns whether the warning is printed. -/
def checkHardwareCounterMultiplexing (envOf : Int → HwCheckEnv) :
    List (Int × Nat) → Bool
  | [] => false
  | (cpu, n) :: rest =>
    match (checkHardwareCountersOnCpu (envOf cpu) n).1 with
    | some false => true
    | _ => checkHardwareCounterMultiplexing envOf rest

/-! ## Theorems -/

/-- Claim C5: for every group, the CPU list used when opening event files is
chosen by this precedence — the first selection's PMU-allowed cpumask when
it is non-empty, otherwise the group's explicit CPU list when non-empty,
otherwise the system's online CPUs. -/
theorem c5_cpu_list_precedence (g : EventSelectionGroup) (online : List Int)
    (s : EventSelection) (hhead : g.selections.head? = some s) :
    (s.allowed_cpus ≠ [] → effectiveCpus g online = s.allowed_cpus) ∧
    (s.allowed_cpus = [] → g.cpus ≠ [] → effectiveCpus g online = g.cpus) ∧
    (s.allowed_cpus = [] → g.cpus = [] → effectiveCpus g online = online) := by
  refine ⟨fun h1 => ?_, fun h1 h2 => ?_, fun h1 h2 => ?_⟩ <;>
    simp [effectiveCpus, hhead, h1, *]

/-- Concrete instantiation of `c5_cpu_list_precedence`. -/
def c5Selection : EventSelection :=
  { eventTypeModifier :=
      { name := "cpu-cycles", eventType :=
          { name := "cpu-cycles", typeCode := 0, isPmuEvent := false,
            isHardwareEvent := true, pmuCpumask := [] },
        modifier := "", exclude_user := false, exclude_kernel := false,
        exclude_hv := false, exclude_host := false, exclude_guest := false,
        precise_ip := 0 },
    event_attr :=
      { typeCode := 0, config := 0, sample_type := 0, freq := false,
        samplePeriodOrFreq := 0, exclude_user := false, exclude_kernel := false,
        exclude_hv := false, exclude_host := false, exclude_guest := false,
        precise_ip := 0, mmap := false, comm := false, mmap2 := false,
        disabled := false, branch_sample_type := 0, aux_watermark := 0 },
    event_fds := [], tracepoint_filter := "", allowed_cpus := [2, 3] }

/-- Witness for `c5_cpu_list_precedence`: on a group whose first selection
has PMU cpumask [2, 3] and whose explicit list is [0], the cpumask wins. -/
theorem c5_witness :
    effectiveCpus { selections := [c5Selection], cpus := [0], set_sample_rate := false }
      [0, 1] = [2, 3] :=
  (c5_cpu_list_precedence
    { selections := [c5Selection], cpus := [0], set_sample_rate := false }
    [0, 1] c5Selection rfl).1 (by decide)

/-- One application of `setSampleRateForNewEvents` makes every group's
`set_sample_rate` flag true, so a second application changes nothing. -/
theorem setSampleRateForNewEvents_idem (st : SelState) (rate : SampleRate) :
    setSampleRateForNewEvents (setSampleRateForNewEvents st rate) rate =
      setSampleRateForNewEvents st rate := by
  simp only [setSampleRateForNewEvents, List.map_map, SelState.mk.injEq, true_and,
    and_true]
  apply List.map_congr_left
  intro g _
  by_cases hg : g.set_sample_rate <;>
    simp [hg, Function.comp, setSampleRateForGroup]

/-- Claim C6: for every selection-set state and every sample rate, calling
`set_sample_rate_for_new_events` n ≥ 1 times in a row leaves the selection
set in exactly the same state as calling it once. -/
theorem c6_sample_rate_idempotent (st : SelState) (rate : SampleRate) (n : Nat)
    (hn : 1 ≤ n) :
    (fun s => setSampleRateForNewEvents s rate)^[n] st =
      setSampleRateForNewEvents st rate := by
  obtain ⟨m, rfl⟩ : ∃ m, n = m + 1 := ⟨n - 1, by omega⟩
  clear hn
  induction m with
  | zero => simp
  | succ k ih =>
    rw [Function.iterate_succ_apply', ih]
    exact setSampleRateForNewEvents_idem st rate

/-- Concrete state for the `c6` witness: one group, flag unset. -/
def c6State : SelState :=
  { for_stat_cmd := false
    groups := [{ selections := [c5Selection], cpus := [], set_sample_rate := false }]
    sample_rate := none, cpus := none, has_aux_trace := false, addr_filters := [] }

/-- Witness for `c6_sample_rate_idempotent` at n = 2 on a concrete state. -/
theorem c6_witness :
    (fun s => setSampleRateForNewEvents s
        { sample_freq := 4000, sample_period := 0, use_freq := true })^[2] c6State =
      setSampleRateForNewEvents c6State
        { sample_freq := 4000, sample_period := 0, use_freq := true } :=
  c6_sample_rate_idempotent c6State
    { sample_freq := 4000, sample_period := 0, use_freq := true } 2 (by decide)

/-- `allSelections` of a state whose groups were updated by mapping `f` over
every group's selections is the map of `f` over `allSelections`. -/
theorem allSelections_mapGroups (st : SelState) (f : EventSelection → EventSelection)
    (b1 : Bool) (r : Option SampleRate) (c : Option (List Int)) (b2 : Bool)
    (fl : List AddrFilter) :
    SelState.allSelections
      { for_stat_cmd := b1, sample_rate := r, cpus := c, has_aux_trace := b2,
        addr_filters := fl,
        groups := st.groups.map (fun g => { g with selections := g.selections.map f }) } =
      st.allSelections.map f := by
  simp [SelState.allSelections, List.flatMap_map, List.map_flatMap]

/-- The four acceptable branch-sampling bits of `SetBranchSampling`. -/
def requiredBranchBits : Nat :=
  PERF_SAMPLE_BRANCH_ANY ||| PERF_SAMPLE_BRANCH_ANY_CALL |||
    PERF_SAMPLE_BRANCH_ANY_RETURN ||| PERF_SAMPLE_BRANCH_IND_CALL

/-- Claim C9: a non-zero branch-sampling mask with none of ANY, ANY_CALL,
ANY_RETURN, IND_CALL makes `set_branch_sampling` return false with the
selection set unchanged; a mask containing one of those bits, with the
capability present, succeeds and stamps every selection's
`branch_sample_type` with the mask and ors `PERF_SAMPLE_BRANCH_STACK` into
its sample type. -/
theorem c9_set_branch_sampling (env : Env) (st : SelState) (mask : Nat) :
    (mask ≠ 0 → mask &&& requiredBranchBits = 0 →
      setBranchSampling env st mask = (false, st)) ∧
    (mask &&& requiredBranchBits ≠ 0 → env.branchSamplingSupported = true →
      (setBranchSampling env st mask).1 = true ∧
      (setBranchSampling env st mask).2.allSelections =
        st.allSelections.map (fun s =>
          { s with event_attr :=
              { s.event_attr with
                sample_type := s.event_attr.sample_type ||| PERF_SAMPLE_BRANCH_STACK
                branch_sample_type := mask } })) := by
  constructor
  · intro h1 h2
    simp [setBranchSampling, requiredBranchBits] at h2 ⊢
    simp [h1, h2]
  · intro h1 h2
    have hne : mask ≠ 0 := by
      intro h0
      rw [h0] at h1
      simp at h1
    have hfirst : ¬ (mask ≠ 0 ∧ mask &&& (PERF_SAMPLE_BRANCH_ANY ||| PERF_SAMPLE_BRANCH_ANY_CALL |||
        PERF_SAMPLE_BRANCH_ANY_RETURN ||| PERF_SAMPLE_BRANCH_IND_CALL) = 0) := by
      rw [requiredBranchBits] at h1
      tauto
    constructor
    · simp [setBranchSampling, hfirst, h2]
    · have hsecond : ¬ (mask ≠ 0 ∧ ¬ env.branchSamplingSupported = true) := by
        simp [h2]
      simp only [setBranchSampling]
      rw [if_neg hfirst, if_neg hsecond]
      simp only [ne_eq, hne, not_false_eq_true, if_true, ite_true]
      exact allSelections_mapGroups st _ st.for_stat_cmd st.sample_rate st.cpus
        st.has_aux_trace st.addr_filters

/-- Concrete state with one group of one selection, for witnesses. -/
def c9State : SelState :=
  { for_stat_cmd := true
    groups := [{ selections := [c5Selection], cpus := [], set_sample_rate := false }]
    sample_rate := none, cpus := none, has_aux_trace := false, addr_filters := [] }

/-- Environment whose external answers are all benign, for witnesses. -/
def benignEnv : Env :=
  { parse := fun _ => none
    defaultAttr := fun _ => c5Selection.event_attr
    isEtmType := fun _ => false
    etmSupportOk := true
    setEtmAttr := fun a => a
    mmap2Supported := true
    attrSupported := fun _ _ => true
    branchSamplingSupported := true
    openOk := fun _ _ _ _ => true
    onlineCpus := [0, 1]
    setFilterOk := fun _ _ => true
    etmFilterPairs := 0 }

/-- Witness for `c9_set_branch_sampling`: both hypotheses discharged at
concrete inputs — mask 1 (`PERF_SAMPLE_BRANCH_USER` only) is rejected with
the state unchanged, mask `PERF_SAMPLE_BRANCH_ANY` is stamped everywhere. -/
theorem c9_witness :
    setBranchSampling benignEnv c9State 1 = (false, c9State) ∧
    (setBranchSampling benignEnv c9State PERF_SAMPLE_BRANCH_ANY).1 = true := by
  constructor
  · exact (c9_set_branch_sampling benignEnv c9State 1).1 (by decide) (by decide)
  · exact ((c9_set_branch_sampling benignEnv c9State PERF_SAMPLE_BRANCH_ANY).2
      (by decide) rfl).1

/-- Every selection after `UnionSampleType` carries the pre-union or of all
sample types. -/
theorem unionSampleType_sample_type (st : SelState) :
    ∀ s ∈ (unionSampleType st).allSelections,
      s.event_attr.sample_type = sampleTypeUnion st := by
  intro s hs
  rw [unionSampleType] at hs
  rw [allSelections_mapGroups st
    (fun s => { s with event_attr :=
        { s.event_attr with sample_type := sampleTypeUnion st } })] at hs
  obtain ⟨s0, _, rfl⟩ := List.mem_map.mp hs
  rfl

/-- Folding the sample-type or over a mapped list whose map preserves
sample types. -/
theorem foldl_lor_map_preserve (f : EventSelection → EventSelection)
    (hf : ∀ s, (f s).event_attr.sample_type = s.event_attr.sample_type) :
    ∀ (l : List EventSelection) (a : Nat),
      (l.map f).foldl (fun acc s => acc ||| s.event_attr.sample_type) a =
        l.foldl (fun acc s => acc ||| s.event_attr.sample_type) a := by
  intro l
  induction l with
  | nil => intro a; rfl
  | cons x xs ih => intro a; simp only [List.map_cons, List.foldl_cons, hf, ih]

/-- The pre-union sample-type or of a state with one group appended: the or
over the old selections and the appended group's selections (given the
latter fold like `sels`). -/
theorem sampleTypeUnion_append (st : SelState) (G : EventSelectionGroup)
    (b1 : Bool) (r0 : Option SampleRate) (c0 : Option (List Int)) (b2 : Bool)
    (fl : List AddrFilter) (sels : List EventSelection)
    (hG : ∀ a : Nat,
      G.selections.foldl (fun acc s => acc ||| s.event_attr.sample_type) a =
        sels.foldl (fun acc s => acc ||| s.event_attr.sample_type) a) :
    sampleTypeUnion
      { for_stat_cmd := b1, groups := st.groups ++ [G], sample_rate := r0,
        cpus := c0, has_aux_trace := b2, addr_filters := fl } =
      sampleTypeUnionOf (st.allSelections ++ sels) := by
  unfold sampleTypeUnion sampleTypeUnionOf
  have h1 : SelState.allSelections
      { for_stat_cmd := b1, groups := st.groups ++ [G], sample_rate := r0,
        cpus := c0, has_aux_trace := b2, addr_filters := fl } =
      st.allSelections ++ G.selections := by
    simp [SelState.allSelections]
  rw [h1, List.foldl_append, List.foldl_append, hG]

/-- Claim C7: after every successful `add_event_group`, every selection has
the same sample-type bitmask, equal to the bitwise or of the sample types of
all selections in the set before the union step: the selections already
committed (`st.allSelections`, whose sample types the call does not touch
before the union) together with the freshly built selections of the new
group (`sels`, as returned by the build loop; the sample-rate and cpu
defaulting steps between building and union never write `sample_type`). -/
theorem c7_union_sample_type (env : Env) (st : SelState) (event_names : List String)
    (check : Bool) (st2 : SelState) (sels : List EventSelection) (aux : Bool)
    (hb : buildGroupSelections env st check event_names st.groups.isEmpty true =
      some (sels, aux))
    (h : addEventGroup env st event_names check = some st2) :
    (∀ s ∈ st2.allSelections,
      s.event_attr.sample_type = sampleTypeUnionOf (st.allSelections ++ sels)) ∧
    (∀ s1 ∈ st2.allSelections, ∀ s2 ∈ st2.allSelections,
      s1.event_attr.sample_type = s2.event_attr.sample_type) := by
  rw [addEventGroup, hb] at h
  have hrate : ∀ (r : SampleRate) (a : Nat),
      (setSampleRateForGroup
        { selections := sels, cpus := [], set_sample_rate := false } r).selections.foldl
          (fun acc s => acc ||| s.event_attr.sample_type) a =
        sels.foldl (fun acc s => acc ||| s.event_attr.sample_type) a := by
    intro r a
    simp only [setSampleRateForGroup]
    refine foldl_lor_map_preserve _ ?_ sels a
    intro s
    by_cases hr : r.UseFreq = true <;> simp [hr]
  rcases hsr : st.sample_rate with _ | r <;> rcases hcs : st.cpus with _ | cs <;>
    simp only [hsr, hcs, Option.some.injEq] at h <;> subst h <;> constructor
  · intro s hs
    rw [unionSampleType_sample_type _ s hs]
    exact sampleTypeUnion_append st _ _ _ _ _ _ sels (fun a => rfl)
  · intro s1 h1 s2 h2
    rw [unionSampleType_sample_type _ s1 h1, unionSampleType_sample_type _ s2 h2]
  · intro s hs
    rw [unionSampleType_sample_type _ s hs]
    exact sampleTypeUnion_append st _ _ _ _ _ _ sels (fun a => rfl)
  · intro s1 h1 s2 h2
    rw [unionSampleType_sample_type _ s1 h1, unionSampleType_sample_type _ s2 h2]
  · intro s hs
    rw [unionSampleType_sample_type _ s hs]
    exact sampleTypeUnion_append st _ _ _ _ _ _ sels (fun a => hrate r a)
  · intro s1 h1 s2 h2
    rw [unionSampleType_sample_type _ s1 h1, unionSampleType_sample_type _ s2 h2]
  · intro s hs
    rw [unionSampleType_sample_type _ s hs]
    exact sampleTypeUnion_append st _ _ _ _ _ _ sels (fun a => hrate r a)
  · intro s1 h1 s2 h2
    rw [unionSampleType_sample_type _ s1 h1, unionSampleType_sample_type _ s2 h2]

/-- If one of the requested names always fails to build, the whole
`AddEventGroup` selection-building loop fails, wherever the name sits. -/
theorem buildGroupSelections_fails_of_mem (env : Env) (st : SelState) (check : Bool)
    (event_names : List String) :
    ∀ (fe fig : Bool) (nm : String),
      (∀ fe2, buildAndCheckEventSelection env st nm fe2 check = none) →
      nm ∈ event_names →
      buildGroupSelections env st check event_names fe fig = none := by
  induction event_names with
  | nil =>
    intro fe fig nm _ hmem
    simp at hmem
  | cons hd rest ih =>
    intro fe fig nm hfail hmem
    rcases List.mem_cons.mp hmem with rfl | hmem2
    · simp [buildGroupSelections, hfail fe]
    · cases hb : buildAndCheckEventSelection env st hd fe check with
      | none => simp [buildGroupSelections, hb]
      | some sel =>
        simp [buildGroupSelections, hb, ih false false nm hfail hmem2]

/-- Claim C3 (amended): in a stat-mode selection set, an event whose base
type is cpu-clock or task-clock with the u modifier (exclude_kernel) or the
k modifier (exclude_user) cannot be built — `BuildAndCheckEventSelection`
returns false and any `AddEventGroup` call containing the name fails, so no
selection is added.  (In a record-mode set the source performs no such
check; see the counterexample.) -/
theorem c3_clock_modifier_rejected (env : Env) (st : SelState) (nm : String)
    (etm : EventTypeAndModifier) (fe chk : Bool)
    (hstat : st.for_stat_cmd = true)
    (hp : env.parse nm = some etm)
    (hname : etm.eventType.name = "cpu-clock" ∨ etm.eventType.name = "task-clock")
    (hmod : etm.exclude_user = true ∨ etm.exclude_kernel = true) :
    buildAndCheckEventSelection env st nm fe chk = none ∧
    (∀ event_names check2, nm ∈ event_names →
      addEventGroup env st event_names check2 = none) := by
  have hbuild : ∀ fe2 chk2, buildAndCheckEventSelection env st nm fe2 chk2 = none := by
    intro fe2 chk2
    simp only [buildAndCheckEventSelection, hp]
    rw [if_pos ⟨hstat, hname, hmod⟩]
  refine ⟨hbuild fe chk, ?_⟩
  intro event_names check2 hmem
  simp [addEventGroup,
    buildGroupSelections_fails_of_mem env st check2 event_names st.groups.isEmpty true
      nm (fun fe2 => hbuild fe2 check2) hmem]

/-- An empty record-mode (`for_stat_cmd = false`) selection set. -/
def recordModeState : SelState :=
  { for_stat_cmd := false, groups := [], sample_rate := none, cpus := none,
    has_aux_trace := false, addr_filters := [] }

/-- An empty stat-mode selection set. -/
def statModeState : SelState :=
  { for_stat_cmd := true, groups := [], sample_rate := none, cpus := none,
    has_aux_trace := false, addr_filters := [] }

/-- The parse of "cpu-clock:u": base type cpu-clock, exclude_kernel set. -/
def cpuClockUserParsed : EventTypeAndModifier :=
  { name := "cpu-clock:u",
    eventType := { name := "cpu-clock", typeCode := 1, isPmuEvent := false,
                   isHardwareEvent := false, pmuCpumask := [] },
    modifier := "u", exclude_user := false, exclude_kernel := true,
    exclude_hv := false, exclude_host := false, exclude_guest := false,
    precise_ip := 0 }

/-- Environment that parses exactly "cpu-clock:u". -/
def c3Env : Env :=
  { benignEnv with
    parse := fun s => if s = "cpu-clock:u" then some cpuClockUserParsed else none }

/-- Counterexample to claim C3 as stated: in a record-mode selection set
(`for_stat_cmd_ = false`) building "cpu-clock:u" succeeds and the add
succeeds, because the modifier check in `BuildAndCheckEventSelection` is
guarded by `for_stat_cmd_`; the claim asserts failure for every selection
set. -/
theorem c3_counterexample :
    (buildAndCheckEventSelection c3Env recordModeState "cpu-clock:u" true false).isSome
        = true ∧
    (addEventGroup c3Env recordModeState ["cpu-clock:u"] false).isSome = true := by
  exact ⟨rfl, rfl⟩

/-- Witness for `c3_clock_modifier_rejected` at a concrete stat-mode input. -/
theorem c3_witness :
    buildAndCheckEventSelection c3Env statModeState "cpu-clock:u" true false = none ∧
    addEventGroup c3Env statModeState ["cpu-clock:u"] false = none := by
  have h := c3_clock_modifier_rejected c3Env statModeState "cpu-clock:u"
    cpuClockUserParsed true false rfl rfl (Or.inl rfl) (Or.inr rfl)
  exact ⟨h.1, h.2 ["cpu-clock:u"] false (by simp)⟩

/-- The selection names of one group. -/
def groupNames (g : EventSelectionGroup) : List String :=
  g.selections.map (fun s => s.eventTypeModifier.name)

/-- Selection names are distinct between distinct groups (the invariant the
uniqueness check in `BuildAndCheckEventSelection` actually maintains). -/
def crossGroupUnique (st : SelState) : Prop :=
  st.groups.Pairwise (fun g1 g2 =>
    ∀ n1 ∈ groupNames g1, ∀ n2 ∈ groupNames g2, n1 ≠ n2)

/-- When the parsed name already occurs in a committed group, the build
fails (the uniqueness scan is the last gate before `return true`). -/
theorem buildAndCheck_none_of_dup (env : Env) (st : SelState) (nm : String)
    (etm : EventTypeAndModifier) (fe chk : Bool)
    (hp : env.parse nm = some etm)
    (hany : st.groups.any (fun g => g.selections.any
      (fun s => s.eventTypeModifier.name = etm.name)) = true) :
    buildAndCheckEventSelection env st nm fe chk = none := by
  simp [buildAndCheckEventSelection, hp, hany]

/-- A successfully built selection carries exactly the parsed
event-type-and-modifier. -/
theorem buildAndCheck_eventTypeModifier (env : Env) (st : SelState) (nm : String)
    (etm : EventTypeAndModifier) (fe chk : Bool) (sel : EventSelection)
    (hp : env.parse nm = some etm)
    (h : buildAndCheckEventSelection env st nm fe chk = some sel) :
    sel.eventTypeModifier = etm := by
  simp only [buildAndCheckEventSelection, hp] at h
  split_ifs at h <;>
    first
      | exact Option.noConfusion h
      | (obtain rfl := Option.some.inj h; rfl)

/-- A successfully built selection's name is absent from every committed
group. -/
theorem buildAndCheck_name_fresh (env : Env) (st : SelState) (nm : String)
    (fe chk : Bool) (sel : EventSelection)
    (h : buildAndCheckEventSelection env st nm fe chk = some sel) :
    ∀ g ∈ st.groups, sel.eventTypeModifier.name ∉ groupNames g := by
  cases hp : env.parse nm with
  | none =>
    rw [buildAndCheckEventSelection, hp] at h
    exact Option.noConfusion h
  | some etm =>
    intro g hg hmem
    have hetm := buildAndCheck_eventTypeModifier env st nm etm fe chk sel hp h
    rw [hetm] at hmem
    obtain ⟨s, hs, hsname⟩ := List.mem_map.mp hmem
    have hany : st.groups.any (fun g => g.selections.any
        (fun s => s.eventTypeModifier.name = etm.name)) = true := by
      rw [List.any_eq_true]
      refine ⟨g, hg, ?_⟩
      rw [List.any_eq_true]
      exact ⟨s, hs, by simp [hsname]⟩
    rw [buildAndCheck_none_of_dup env st nm etm fe chk hp hany] at h
    exact Option.noConfusion h

/-- Every selection built by the `AddEventGroup` loop has a name absent from
every committed group. -/
theorem buildGroupSelections_names_fresh (env : Env) (st : SelState) (check : Bool) :
    ∀ (event_names : List String) (fe fig : Bool) (sels : List EventSelection)
      (aux : Bool),
      buildGroupSelections env st check event_names fe fig = some (sels, aux) →
      ∀ sel ∈ sels, ∀ g ∈ st.groups, sel.eventTypeModifier.name ∉ groupNames g := by
  intro event_names
  induction event_names with
  | nil =>
    intro fe fig sels aux h sel hsel
    simp [buildGroupSelections] at h
    rw [h.1] at hsel
    simp at hsel
  | cons hd rest ih =>
    intro fe fig sels aux h sel hsel
    rw [buildGroupSelections] at h
    cases hb : buildAndCheckEventSelection env st hd fe check with
    | none =>
      rw [hb] at h
      exact Option.noConfusion h
    | some sel0 =>
      rw [hb] at h
      cases hrest : buildGroupSelections env st check rest false false with
      | none =>
        rw [hrest] at h
        exact Option.noConfusion h
      | some p =>
        rw [hrest] at h
        obtain ⟨sels2, aux2⟩ := p
        simp only [Option.some.injEq, Prod.mk.injEq] at h
        obtain ⟨hcons, -⟩ := h
        rw [← hcons] at hsel
        rcases List.mem_cons.mp hsel with rfl | htail
        · intro g hg
          have hfresh := buildAndCheck_name_fresh env st hd fe check sel0 hb g hg
          split <;> simpa using hfresh
        · exact ih false false sels2 aux2 hrest sel htail

/-- Group names are untouched by `setSampleRateForGroup`. -/
theorem groupNames_setSampleRateForGroup (g : EventSelectionGroup) (r : SampleRate) :
    groupNames (setSampleRateForGroup g r) = groupNames g := by
  simp [groupNames, setSampleRateForGroup, List.map_map, Function.comp, apply_ite]

/-- Group names are untouched by the write-back of `UnionSampleType`. -/
theorem groupNames_sampleTypeWrite (g : EventSelectionGroup) (t : Nat) :
    groupNames { g with selections := g.selections.map (fun s =>
      { s with event_attr := { s.event_attr with sample_type := t } }) } =
      groupNames g := by
  simp [groupNames, List.map_map, Function.comp]

/-- `UnionSampleType` preserves cross-group uniqueness (it only rewrites
attributes). -/
theorem crossGroupUnique_unionSampleType (st : SelState)
    (h : crossGroupUnique st) : crossGroupUnique (unionSampleType st) := by
  rw [crossGroupUnique, unionSampleType]
  simp only [List.pairwise_map]
  refine h.imp ?_
  intro g1 g2 hR n1 h1 n2 h2
  rw [groupNames_sampleTypeWrite] at h1 h2
  exact hR n1 h1 n2 h2

/-- Claim C2 (amended): (i) adding an event whose parsed name matches a
selection in any committed group fails; (ii) a successful `add_event_group`
preserves cross-group uniqueness of names — names are pairwise distinct
between different groups.  (A duplicate inside one `add_event_group` call is
not rejected; see the counterexample.) -/
theorem c2_uniqueness (env : Env) (st : SelState) :
    (∀ (nm : String) (etm : EventTypeAndModifier) (event_names : List String)
       (check : Bool),
       env.parse nm = some etm →
       (∃ g ∈ st.groups, etm.name ∈ groupNames g) →
       nm ∈ event_names →
       addEventGroup env st event_names check = none) ∧
    (∀ (event_names : List String) (check : Bool) (st2 : SelState),
       crossGroupUnique st →
       addEventGroup env st event_names check = some st2 →
       crossGroupUnique st2) := by
  constructor
  · intro nm etm event_names check hp hex hmem
    have hany : st.groups.any (fun g => g.selections.any
        (fun s => s.eventTypeModifier.name = etm.name)) = true := by
      rw [List.any_eq_true]
      obtain ⟨g, hg, hmm⟩ := hex
      refine ⟨g, hg, ?_⟩
      rw [List.any_eq_true]
      obtain ⟨s, hs, hsname⟩ := List.mem_map.mp hmm
      exact ⟨s, hs, by simp [hsname]⟩
    simp [addEventGroup,
      buildGroupSelections_fails_of_mem env st check event_names st.groups.isEmpty
        true nm (fun fe2 => buildAndCheck_none_of_dup env st nm etm fe2 check hp hany)
        hmem]
  · intro event_names check st2 huniq h
    rw [addEventGroup] at h
    cases hb : buildGroupSelections env st check event_names st.groups.isEmpty true with
    | none =>
      rw [hb] at h
      exact Option.noConfusion h
    | some p =>
      rw [hb] at h
      obtain ⟨sels, aux⟩ := p
      simp only [Option.some.injEq] at h
      rw [← h]
      have hfresh := buildGroupSelections_names_fresh env st check event_names
        st.groups.isEmpty true sels aux hb
      apply crossGroupUnique_unionSampleType
      rw [crossGroupUnique]
      simp only [List.pairwise_append]
      refine ⟨huniq, List.pairwise_singleton _ _, ?_⟩
      intro g1 hg1 g2 hg2
      simp only [List.mem_singleton] at hg2
      have hGnames : groupNames g2 =
          sels.map (fun s => s.eventTypeModifier.name) := by
        rw [hg2]
        cases st.sample_rate <;> cases st.cpus <;>
          simp [groupNames, groupNames_setSampleRateForGroup, setSampleRateForGroup,
            List.map_map, Function.comp, apply_ite]
      intro n1 h1 n2 h2
      rw [hGnames] at h2
      obtain ⟨sel, hsel, rfl⟩ := List.mem_map.mp h2
      intro hEq
      exact hfresh sel hsel g1 hg1 (hEq ▸ h1)

/-- The parse of a plain event name "ev". -/
def evParsed : EventTypeAndModifier :=
  { name := "ev",
    eventType := { name := "ev", typeCode := 1, isPmuEvent := false,
                   isHardwareEvent := false, pmuCpumask := [] },
    modifier := "", exclude_user := false, exclude_kernel := false,
    exclude_hv := false, exclude_host := false, exclude_guest := false,
    precise_ip := 0 }

/-- Environment that parses exactly "ev". -/
def c2Env : Env :=
  { benignEnv with parse := fun s => if s = "ev" then some evParsed else none }

/-- Counterexample to claim C2 as stated: the uniqueness scan in
`BuildAndCheckEventSelection` only walks the committed `groups_`, so
`add_event_group(["ev", "ev"])` succeeds and leaves two selections with the
same name in the set — names are not pairwise distinct after the call, and
the duplicated name inside one call does not make the add fail. -/
theorem c2_counterexample :
    (addEventGroup c2Env statModeState ["ev", "ev"] false).map
        (fun st => st.allSelections.map (fun s => s.eventTypeModifier.name)) =
      some ["ev", "ev"] ∧
    ¬ List.Pairwise (fun a b : String => a ≠ b) ["ev", "ev"] := by
  constructor
  · rfl
  · simp

/-- A selection named "ev". -/
def evSelection : EventSelection :=
  { eventTypeModifier := evParsed, event_attr := c5Selection.event_attr,
    event_fds := [], tracepoint_filter := "", allowed_cpus := [] }

/-- A committed group holding one selection named "ev". -/
def evGroup : EventSelectionGroup :=
  { selections := [evSelection], cpus := [], set_sample_rate := false }

/-- A stat-mode state already holding one selection named "ev". -/
def stWithEv : SelState :=
  { for_stat_cmd := true
    groups := [evGroup]
    sample_rate := none, cpus := none, has_aux_trace := false, addr_filters := [] }

/-- The state produced by the first successful add of "ev". -/
def c2AddedState : SelState :=
  (addEventGroup c2Env statModeState ["ev"] false).getD statModeState

/-- Witness for `c2_uniqueness`: re-adding "ev" to a set that contains it
fails, and a successful add preserves cross-group uniqueness. -/
theorem c2_witness :
    addEventGroup c2Env stWithEv ["ev"] false = none ∧
    crossGroupUnique c2AddedState := by
  constructor
  · exact (c2_uniqueness c2Env stWithEv).1 "ev" evParsed ["ev"] false rfl
      ⟨evGroup, by simp [stWithEv], by simp [evGroup, evSelection, groupNames, evParsed]⟩
      (by simp)
  · exact (c2_uniqueness c2Env statModeState).2 ["ev"] false c2AddedState
      (by simp [crossGroupUnique, statModeState]) rfl

/-- The selections built by the first successful add of "ev". -/
def c7BuiltSels : List EventSelection × Bool :=
  (buildGroupSelections c2Env statModeState false ["ev"]
    statModeState.groups.isEmpty true).getD ([], false)

/-- Witness for `c7_union_sample_type` at a concrete successful add. -/
theorem c7_witness :
    (∀ s ∈ c2AddedState.allSelections,
      s.event_attr.sample_type =
        sampleTypeUnionOf (statModeState.allSelections ++ c7BuiltSels.1)) ∧
    (∀ s1 ∈ c2AddedState.allSelections, ∀ s2 ∈ c2AddedState.allSelections,
      s1.event_attr.sample_type = s2.event_attr.sample_type) :=
  c7_union_sample_type c2Env statModeState ["ev"] false c2AddedState
    c7BuiltSels.1 c7BuiltSels.2 rfl rfl

/-- A hardware-check environment in which every external step succeeds. -/
def goodHwEnv (env : HwCheckEnv) : Prop :=
  env.cyclesEventFound = true ∧ env.workloadSetupOk = true ∧
    env.workloadRunOk = true ∧ (∀ i, env.openOk i = true) ∧
    (∀ i, env.readOk i = true)

/-- When every open succeeds, the open loop makes exactly `rem` calls. -/
theorem hwOpenRun_all (env : HwCheckEnv) (h : ∀ i, env.openOk i = true) :
    ∀ (rem start : Nat), hwOpenRun env start rem = (rem, true) := by
  intro rem
  induction rem with
  | zero => intro start; rfl
  | succ r ih => intro start; simp [hwOpenRun, h start, ih (start + 1)]

/-- When every read succeeds, the read loop never returns `nullopt`. -/
theorem hwReadRun_ne_none (env : HwCheckEnv) (h : ∀ i, env.readOk i = true) :
    ∀ (rem start : Nat), hwReadRun env start rem ≠ none := by
  intro rem
  induction rem with
  | zero => intro start; simp [hwReadRun]
  | succ r ih =>
    intro start
    rw [hwReadRun]
    simp only [h start, not_true_eq_false, if_false]
    split
    · simp
    · exact ih (start + 1)

/-- When every read succeeds, the read loop reports `false` exactly when
some counter in range has `time_enabled == 0` or
`time_enabled > time_running`. -/
theorem hwReadRun_false_iff (env : HwCheckEnv) (h : ∀ i, env.readOk i = true) :
    ∀ (rem start : Nat),
      (hwReadRun env start rem = some false ↔
        ∃ i < rem, env.timeEnabled (start + i) = 0 ∨
          env.timeEnabled (start + i) > env.timeRunning (start + i)) := by
  intro rem
  induction rem with
  | zero => intro start; simp [hwReadRun]
  | succ r ih =>
    intro start
    rw [hwReadRun]
    simp only [h start, not_true_eq_false, if_false]
    by_cases hbad : env.timeEnabled start = 0 ∨ env.timeEnabled start > env.timeRunning start
    · simp only [if_pos hbad]
      constructor
      · intro _
        exact ⟨0, by omega, by simpa using hbad⟩
      · intro _
        trivial
    · simp only [if_neg hbad, ih (start + 1)]
      constructor
      · rintro ⟨i, hi, hb⟩
        exact ⟨i + 1, by omega, by rw [show start + (i + 1) = start + 1 + i by omega]; exact hb⟩
      · rintro ⟨i, hi, hb⟩
        match i with
        | 0 => exact absurd (by simpa using hb) hbad
        | j + 1 =>
          exact ⟨j, by omega, by rw [show start + 1 + j = start + (j + 1) by omega]; exact hb⟩

/-- In a fully succeeding environment the check opens exactly the requested
number of cycles events. -/
theorem checkHardwareCountersOnCpu_opens (env : HwCheckEnv) (hg : goodHwEnv env)
    (n : Nat) : (checkHardwareCountersOnCpu env n).2 = n := by
  obtain ⟨h1, h2, h3, h4, h5⟩ := hg
  by_cases hn : n = 0
  · simp [checkHardwareCountersOnCpu, hn]
  · simp [checkHardwareCountersOnCpu, hn, h1, h2, h3, hwOpenRun_all env h4 n 0]

/-- In a fully succeeding environment the check's result for a non-zero
request is the read loop's verdict. -/
theorem checkHardwareCountersOnCpu_res (env : HwCheckEnv) (hg : goodHwEnv env)
    (n : Nat) (hn : n ≠ 0) :
    (checkHardwareCountersOnCpu env n).1 = hwReadRun env 0 n := by
  obtain ⟨h1, h2, h3, h4, h5⟩ := hg
  simp [checkHardwareCountersOnCpu, hn, h1, h2, h3, hwOpenRun_all env h4 n 0]

/-- Claim C1 (amended): for every CPU entry of the post-session check, the
stat command opens exactly `requested_count` cpu-cycles events pinned to
that CPU (not `requested_count + 1`), and — when opening, workload and
reading always succeed — the multiplexing warning is printed exactly when
some CPU with a non-zero request has an opened counter with
`time_enabled == 0` or `time_enabled > time_running`. -/
theorem c1_multiplexing_check (envOf : Int → HwCheckEnv)
    (entries : List (Int × Nat))
    (hgood : ∀ e ∈ entries, goodHwEnv (envOf e.1)) :
    (∀ e ∈ entries, (checkHardwareCountersOnCpu (envOf e.1) e.2).2 = e.2) ∧
    (checkHardwareCounterMultiplexing envOf entries = true ↔
      ∃ e ∈ entries, e.2 ≠ 0 ∧ ∃ i < e.2,
        (envOf e.1).timeEnabled i = 0 ∨
          (envOf e.1).timeEnabled i > (envOf e.1).timeRunning i) := by
  constructor
  · intro e he
    exact checkHardwareCountersOnCpu_opens (envOf e.1) (hgood e he) e.2
  · induction entries with
    | nil => simp [checkHardwareCounterMultiplexing]
    | cons e rest ih =>
      obtain ⟨cpu, n⟩ := e
      have hge : goodHwEnv (envOf cpu) := hgood (cpu, n) (by simp)
      have hgrest : ∀ e ∈ rest, goodHwEnv (envOf e.1) :=
        fun e he => hgood e (by simp [he])
      rw [checkHardwareCounterMultiplexing]
      by_cases hn : n = 0
      · have hres : (checkHardwareCountersOnCpu (envOf cpu) n).1 = some true := by
          simp [checkHardwareCountersOnCpu, hn]
        rw [hres]
        simp only [ih hgrest, List.mem_cons]
        constructor
        · rintro ⟨e2, he2, hrest2⟩
          exact ⟨e2, Or.inr he2, hrest2⟩
        · rintro ⟨e2, he2 | he2, hrest2⟩
          · rw [he2] at hrest2
            exact absurd hn hrest2.1
          · exact ⟨e2, he2, hrest2⟩
      · have hres := checkHardwareCountersOnCpu_res (envOf cpu) hge n hn
        rcases hrr : hwReadRun (envOf cpu) 0 n with _ | b
        · exact absurd hrr (hwReadRun_ne_none (envOf cpu) hge.2.2.2.2 n 0)
        · rcases b with _ | _
          · -- read loop reported a bad counter: the warning fires
            rw [hres, hrr]
            simp only [true_iff]
            refine ⟨(cpu, n), by simp, hn, ?_⟩
            simpa using (hwReadRun_false_iff (envOf cpu) hge.2.2.2.2 n 0).mp hrr
          · -- all counters fine on this cpu: the loop continues
            rw [hres, hrr]
            simp only [ih hgrest, List.mem_cons]
            have hnobad : ¬ ∃ i < n, (envOf cpu).timeEnabled i = 0 ∨
                (envOf cpu).timeEnabled i > (envOf cpu).timeRunning i := by
              intro hex
              have := (hwReadRun_false_iff (envOf cpu) hge.2.2.2.2 n 0).mpr
                (by simpa using hex)
              rw [this] at hrr
              exact Bool.noConfusion (Option.some.inj hrr)
            constructor
            · rintro ⟨e2, he2, hrest2⟩
              exact ⟨e2, Or.inr he2, hrest2⟩
            · rintro ⟨e2, he2 | he2, hrest2⟩
              · rw [he2] at hrest2
                exact absurd hrest2.2 hnobad
              · exact ⟨e2, he2, hrest2⟩

/-- A hardware-check environment where everything succeeds and every counter
runs all the time it is enabled. -/
def hwEnvAll : HwCheckEnv :=
  { cyclesEventFound := true, workloadSetupOk := true, openOk := fun _ => true,
    workloadRunOk := true, readOk := fun _ => true,
    timeEnabled := fun _ => 5, timeRunning := fun _ => 5 }

/-- Counterexample to claim C1 as stated: with one hardware event requested
on a CPU, `CheckHardwareCounterMultiplexing` calls
`CheckHardwareCountersOnCpu(cpu, 1)`, which opens exactly 1 cpu-cycles
event, not `requested_count + 1 = 2` as the claim says. -/
theorem c1_counterexample :
    (checkHardwareCountersOnCpu hwEnvAll 1).2 = 1 ∧
    (checkHardwareCountersOnCpu hwEnvAll 1).2 ≠ 1 + 1 := by
  exact ⟨rfl, by decide⟩

/-- A hardware-check environment exhibiting multiplexing: time_enabled
exceeds time_running. -/
def hwEnvMux : HwCheckEnv :=
  { cyclesEventFound := true, workloadSetupOk := true, openOk := fun _ => true,
    workloadRunOk := true, readOk := fun _ => true,
    timeEnabled := fun _ => 10, timeRunning := fun _ => 4 }

/-- Witness for `c1_multiplexing_check` on one entry (cpu 0, two hardware
events) whose counters show multiplexing. -/
theorem c1_witness :
    (∀ e ∈ [((0 : Int), 2)],
      (checkHardwareCountersOnCpu hwEnvMux e.2).2 = e.2) ∧
    (checkHardwareCounterMultiplexing (fun _ => hwEnvMux) [((0 : Int), 2)] = true ↔
      ∃ e ∈ [((0 : Int), 2)], e.2 ≠ 0 ∧ ∃ i < e.2,
        hwEnvMux.timeEnabled i = 0 ∨
          hwEnvMux.timeEnabled i > hwEnvMux.timeRunning i) :=
  c1_multiplexing_check (fun _ => hwEnvMux) [((0 : Int), 2)]
    (fun _ _ => ⟨rfl, rfl, rfl, fun _ => rfl, fun _ => rfl⟩)

/-- When every open of the group loop succeeds, the collected fds are one
per selection, carrying the selection's name and the (tid, cpu) pair. -/
theorem openSelectionsGo_some_eq (env : Env) (tid cpu : Int) :
    ∀ (sels : List EventSelection) (ld : Option EventFd) (fds : List EventFd),
      (openSelectionsGo env tid cpu ld sels).2 = some fds →
      fds = sels.map (fun s =>
        { name := s.eventTypeModifier.name, tid := tid, cpu := cpu }) := by
  intro sels
  induction sels with
  | nil =>
    intro ld fds h
    simp [openSelectionsGo] at h
    simp [← h]
  | cons s rest ih =>
    intro ld fds h
    rw [openSelectionsGo] at h
    by_cases hok : env.openOk s.eventTypeModifier.name tid cpu ld = true
    · simp only [hok, if_true] at h
      obtain ⟨fds2, htail, hf⟩ := Option.map_eq_some'.mp h
      rw [← hf, ih _ fds2 htail]
      simp
    · simp [hok] at h

/-- Zipping a list with its own map and projecting is a plain map. -/
theorem zip_map_self {α β γ : Type} (l : List α) (f : α → β) (u : α × β → γ) :
    (l.zip (l.map f)).map u = l.map (fun x => u (x, f x)) := by
  induction l with
  | nil => rfl
  | cons x xs ih => simp [ih]

/-- Once a leader is fixed, every subsequent open call passes it. -/
theorem openSelectionsGo_leader (env : Env) (tid cpu : Int) :
    ∀ (sels : List EventSelection) (l : EventFd),
      ∀ cl ∈ (openSelectionsGo env tid cpu (some l) sels).1, cl.2 = some l := by
  intro sels
  induction sels with
  | nil => intro l cl hcl; simp [openSelectionsGo] at hcl
  | cons s rest ih =>
    intro l cl hcl
    rw [openSelectionsGo] at hcl
    by_cases hok : env.openOk s.eventTypeModifier.name tid cpu (some l) = true
    · simp only [hok, if_true, List.mem_cons] at hcl
      rcases hcl with rfl | hcl2
      · rfl
      · exact ih l cl hcl2
    · simp [hok] at hcl
      rw [hcl]

/-- If every cpu fails for the group, the inner cpu loop leaves the
accumulator untouched. -/
theorem openCpusFold_all_fail (env : Env) (g : EventSelectionGroup) (tid : Int) :
    ∀ (cs : List Int),
      (∀ cpu ∈ cs, openEventFilesOnGroup env g tid cpu = none) → ∀ (k : Nat),
      cs.foldl (fun acc2 cpu =>
        match openEventFilesOnGroup env acc2.1 tid cpu with
        | some g2 => (g2, acc2.2 + 1)
        | none => acc2) (g, k) = (g, k) := by
  intro cs
  induction cs with
  | nil => intro _ _; rfl
  | cons c cs2 ih =>
    intro hall k
    rw [List.foldl_cons]
    have hc := hall c (by simp)
    simp only [hc]
    exact ih (fun cpu h2 => hall cpu (by simp [h2])) k

/-- If every (tid, cpu) pair fails for a group, the double loop leaves the
group untouched with zero successes. -/
theorem openGroupForPairs_all_fail (env : Env) (g : EventSelectionGroup)
    (cpus : List Int) :
    ∀ (tids : List Int),
      (∀ tid ∈ tids, ∀ cpu ∈ cpus, openEventFilesOnGroup env g tid cpu = none) →
      openGroupForPairs env g tids cpus = (g, 0) := by
  intro tids
  induction tids with
  | nil => intro _; rfl
  | cons t ts ih =>
    intro h
    rw [openGroupForPairs, List.foldl_cons]
    rw [openCpusFold_all_fail env g t cpus (h t (by simp)) 0]
    have h2 := ih (fun tid ht cpu hc => h tid (by simp [ht]) cpu hc)
    rw [openGroupForPairs] at h2
    exact h2

/-- A group all of whose (tid, cpu) pairs fail makes the group loop fail. -/
theorem openGroupsGo_none_of_fail (env : Env) (tids : List Int) :
    ∀ (groups : List EventSelectionGroup) (g : EventSelectionGroup),
      g ∈ groups →
      (∀ tid ∈ tids, ∀ cpu ∈ effectiveCpus g env.onlineCpus,
        openEventFilesOnGroup env g tid cpu = none) →
      openGroupsGo env tids groups = none := by
  intro groups
  induction groups with
  | nil => intro g hg _; simp at hg
  | cons hd rest ih =>
    intro g hg hfail
    rcases List.mem_cons.mp hg with rfl | hg2
    · simp only [openGroupsGo]
      rw [openGroupForPairs_all_fail env g (effectiveCpus g env.onlineCpus) tids hfail]
      simp
    · simp only [openGroupsGo]
      rw [ih g hg2 hfail]
      simp

/-- Claim C4: (i) a successful `OpenEventFilesOnGroup` for one (tid, cpu)
extends every selection of the group by exactly one fd for that (tid, cpu)
(a failed one leaves the group untouched, since the locally opened fds are
discarded); (ii) the first selection's fd is the group leader passed to all
subsequent opens of that (tid, cpu); (iii) a group for which every
(tid, cpu) pair fails makes `OpenEventFiles` return false. -/
theorem c4_open_transaction :
    (∀ (env : Env) (g : EventSelectionGroup) (tid cpu : Int)
       (g2 : EventSelectionGroup),
       openEventFilesOnGroup env g tid cpu = some g2 →
       g2.selections = g.selections.map (fun s =>
         { s with event_fds := s.event_fds ++
             [{ name := s.eventTypeModifier.name, tid := tid, cpu := cpu }] })) ∧
    (∀ (env : Env) (g : EventSelectionGroup) (tid cpu : Int) (s0 : EventSelection),
       g.selections.head? = some s0 →
       env.openOk s0.eventTypeModifier.name tid cpu none = true →
       ∃ calls0, openCallsOnGroup env g tid cpu =
           (s0.eventTypeModifier.name, none) :: calls0 ∧
         ∀ cl ∈ calls0, cl.2 =
           some { name := s0.eventTypeModifier.name, tid := tid, cpu := cpu }) ∧
    (∀ (env : Env) (st : SelState) (tids : List Int) (g : EventSelectionGroup),
       g ∈ st.groups →
       (∀ tid ∈ tids, ∀ cpu ∈ effectiveCpus g env.onlineCpus,
         openEventFilesOnGroup env g tid cpu = none) →
       openEventFilesForThreads env st tids = none) := by
  refine ⟨?_, ?_, ?_⟩
  · intro env g tid cpu g2 h
    rw [openEventFilesOnGroup] at h
    cases hgo : (openSelectionsGo env tid cpu none g.selections).2 with
    | none =>
      rw [hgo] at h
      exact Option.noConfusion h
    | some fds =>
      rw [hgo] at h
      simp only [Option.some.injEq] at h
      rw [← h]
      obtain rfl := openSelectionsGo_some_eq env tid cpu g.selections none fds hgo
      exact zip_map_self g.selections _ _
  · intro env g tid cpu s0 hhead hok
    obtain ⟨rest, hsel⟩ : ∃ rest, g.selections = s0 :: rest := by
      cases hsels : g.selections with
      | nil => rw [hsels] at hhead; simp at hhead
      | cons a b =>
        rw [hsels] at hhead
        simp only [List.head?_cons, Option.some.injEq] at hhead
        exact ⟨b, by rw [hhead]⟩
    rw [openCallsOnGroup, hsel, openSelectionsGo]
    simp only [hok, if_true]
    refine ⟨_, rfl, ?_⟩
    intro cl hcl
    exact openSelectionsGo_leader env tid cpu rest _ cl hcl
  · intro env st tids g hg hfail
    rw [openEventFilesForThreads, openGroupsGo_none_of_fail env tids st.groups g hg hfail]

/-- An environment in which every `OpenEventFile` call fails. -/
def allFailEnv : Env := { benignEnv with openOk := fun _ _ _ _ => false }

/-- The group state after opening `evGroup` for (tid 7, cpu 1). -/
def c4GroupOpened : EventSelectionGroup :=
  (openEventFilesOnGroup benignEnv evGroup 7 1).getD evGroup

/-- Witness for `c4_open_transaction` at concrete inputs. -/
theorem c4_witness :
    c4GroupOpened.selections = evGroup.selections.map (fun s =>
      { s with event_fds := s.event_fds ++
          [{ name := s.eventTypeModifier.name, tid := 7, cpu := 1 }] }) ∧
    (∃ calls0, openCallsOnGroup benignEnv evGroup 7 1 =
        (evSelection.eventTypeModifier.name, none) :: calls0 ∧
      ∀ cl ∈ calls0, cl.2 =
        some { name := evSelection.eventTypeModifier.name, tid := 7, cpu := 1 }) ∧
    openEventFilesForThreads allFailEnv stWithEv [5] = none := by
  refine ⟨?_, ?_, ?_⟩
  · exact c4_open_transaction.1 benignEnv evGroup 7 1 c4GroupOpened rfl
  · exact c4_open_transaction.2.1 benignEnv evGroup 7 1 evSelection rfl rfl
  · exact c4_open_transaction.2.2 allFailEnv stWithEv [5] evGroup (by simp [stWithEv])
      (by decide)

/-- The Bool key predicate of `FindSummary` for the empty modifier. -/
def emptyModAt (type_name : String) (thread : Nat) (cpu : Int)
    (s : CounterSummary) : Bool :=
  s.type_name = type_name ∧ s.modifier = "" ∧ s.thread = thread ∧ s.cpu = cpu

/-- `FindSummary` returns null exactly when no summary matches. -/
theorem findSummary_eq_none_iff (l : List CounterSummary) (ty mo : String)
    (th : Nat) (c : Int) :
    findSummary l ty mo th c = none ↔
      ∀ s ∈ l, ¬(s.type_name = ty ∧ s.modifier = mo ∧ s.thread = th ∧ s.cpu = c) := by
  rw [findSummary, List.find?_eq_none]
  simp

/-- A found summary stays the first match after appending. -/
theorem findSummary_append_some (l l2 : List CounterSummary) (ty mo : String)
    (th : Nat) (c : Int) (s : CounterSummary)
    (h : findSummary l ty mo th c = some s) :
    findSummary (l ++ l2) ty mo th c = some s := by
  rw [findSummary] at h ⊢
  rw [List.find?_append, h]
  rfl

/-- Appending a non-matching summary preserves a null `FindSummary`. -/
theorem findSummary_append_none (l : List CounterSummary) (ty mo : String)
    (th : Nat) (c : Int) (n : CounterSummary)
    (h : findSummary l ty mo th c = none)
    (hn : ¬(n.type_name = ty ∧ n.modifier = mo ∧ n.thread = th ∧ n.cpu = c)) :
    findSummary (l ++ [n]) ty mo th c = none := by
  rw [findSummary_eq_none_iff] at h ⊢
  intro s hs
  rcases List.mem_append.mp hs with h2 | h2
  · exact h s h2
  · rw [List.mem_singleton.mp h2]
    exact hn

/-- `AutoGenerateSummaries` only appends: every input summary survives. -/
theorem autoGenerateSummariesGo_mono
    (sameTime : CounterSummary → CounterSummary → Bool) (t : CounterSummary) :
    ∀ full todo, t ∈ full → t ∈ autoGenerateSummariesGo sameTime full todo := by
  intro full todo
  induction full, todo using autoGenerateSummariesGo.induct sameTime with
  | case1 full => intro h; simpa [autoGenerateSummariesGo] using h
  | case2 full s rest hu other hfk hstime hguard n ih =>
    intro hmem
    rw [autoGenerateSummariesGo, if_pos hu]
    simp only [hfk]
    rw [if_pos hstime, if_pos hguard]
    exact ih (by simp [hmem])
  | case3 full s rest hu other hfk hstime hguard ih =>
    intro hmem
    rw [autoGenerateSummariesGo, if_pos hu]
    simp only [hfk]
    rw [if_pos hstime, if_neg hguard]
    exact ih hmem
  | case4 full s rest hu other hfk hstime ih =>
    intro hmem
    rw [autoGenerateSummariesGo, if_pos hu]
    simp only [hfk]
    rw [if_neg hstime]
    exact ih hmem
  | case5 full s rest hu hfk ih =>
    intro hmem
    rw [autoGenerateSummariesGo, if_pos hu]
    simp only [hfk]
    exact ih hmem
  | case6 full s rest hu ih =>
    intro hmem
    rw [autoGenerateSummariesGo, if_neg hu]
    exact ih hmem

/-- Generalized C10 invariant: once the full list holds an empty-modifier
summary at a key, the loop never appends another summary at that key, so
the filtered sublist is stable. -/
theorem autoGenerateSummariesGo_filter_stable
    (sameTime : CounterSummary → CounterSummary → Bool) (ty : String) (th : Nat)
    (c : Int) :
    ∀ full todo, (∃ s ∈ full, emptyModAt ty th c s = true) →
      (autoGenerateSummariesGo sameTime full todo).filter (emptyModAt ty th c) =
        full.filter (emptyModAt ty th c) := by
  intro full todo
  induction full, todo using autoGenerateSummariesGo.induct sameTime with
  | case1 full => intro _; rw [autoGenerateSummariesGo]
  | case2 full s rest hu other hfk hstime hguard n ih =>
    intro hex
    rw [autoGenerateSummariesGo, if_pos hu]
    simp only [hfk]
    rw [if_pos hstime, if_pos hguard]
    have hn : emptyModAt ty th c (mkAutoSummary s other) = false := by
      rw [emptyModAt]
      simp only [mkAutoSummary, decide_eq_false_iff_not]
      rintro ⟨hty, -, hth, hc⟩
      obtain ⟨s2, hs2, hp2⟩ := hex
      rw [findSummary_eq_none_iff] at hguard
      refine hguard s2 hs2 ?_
      rw [emptyModAt, decide_eq_true_eq] at hp2
      exact ⟨by rw [hp2.1, ← hty], hp2.2.1, by rw [hp2.2.2.1, ← hth],
        by rw [hp2.2.2.2, ← hc]⟩
    rw [ih ?hex2]
    case hex2 =>
      obtain ⟨s2, hs2, hp2⟩ := hex
      exact ⟨s2, by simp [hs2], hp2⟩
    rw [List.filter_append]
    simp [hn]
  | case3 full s rest hu other hfk hstime hguard ih =>
    intro hex
    rw [autoGenerateSummariesGo, if_pos hu]
    simp only [hfk]
    rw [if_pos hstime, if_neg hguard]
    exact ih hex
  | case4 full s rest hu other hfk hstime ih =>
    intro hex
    rw [autoGenerateSummariesGo, if_pos hu]
    simp only [hfk]
    rw [if_neg hstime]
    exact ih hex
  | case5 full s rest hu hfk ih =>
    intro hex
    rw [autoGenerateSummariesGo, if_pos hu]
    simp only [hfk]
    exact ih hex
  | case6 full s rest hu ih =>
    intro hex
    rw [autoGenerateSummariesGo, if_neg hu]
    exact ih hex

/-- Claim C10: when the summary list already holds an empty-modifier summary
for a (type name, thread, cpu) key, `AutoGenerateSummaries` adds no
auto-generated empty-modifier summary for that key — the empty-modifier
summaries at the key are exactly those of the input. -/
theorem c10_no_overwrite (sameTime : CounterSummary → CounterSummary → Bool)
    (l : List CounterSummary) (ty : String) (th : Nat) (c : Int)
    (hex : ∃ s ∈ l, s.type_name = ty ∧ s.modifier = "" ∧ s.thread = th ∧ s.cpu = c) :
    (autoGenerateSummaries sameTime l).filter (emptyModAt ty th c) =
      l.filter (emptyModAt ty th c) := by
  rw [autoGenerateSummaries]
  apply autoGenerateSummariesGo_filter_stable
  obtain ⟨s, hs, hp⟩ := hex
  exact ⟨s, hs, by rw [emptyModAt, decide_eq_true_eq]; exact hp⟩

/-- `List.find?` success decomposes the list around the first match. -/
theorem find?_decomp {α : Type} (p : α → Bool) :
    ∀ (l : List α) (b : α), l.find? p = some b →
      p b = true ∧ ∃ t1 t2, l = t1 ++ b :: t2 ∧ ∀ x ∈ t1, p x = false := by
  intro l
  induction l with
  | nil => intro b h; simp at h
  | cons a l2 ih =>
    intro b h
    by_cases hpa : p a = true
    · rw [List.find?_cons_of_pos _ hpa] at h
      obtain rfl := Option.some.inj h
      exact ⟨hpa, [], l2, rfl, by simp⟩
    · rw [List.find?_cons_of_neg _ (by simpa using hpa)] at h
      obtain ⟨hb, t1, t2, hdec, ht1⟩ := ih b h
      refine ⟨hb, a :: t1, t2, by rw [hdec, List.cons_append], ?_⟩
      intro x hx
      rcases List.mem_cons.mp hx with rfl | hx2
      · simpa using hpa
      · exact ht1 x hx2

/-- Generalized C8 invariant: while the loop has not yet reached the first
"u" summary at the key, the "k" lookup and the absent "" lookup persist, and
reaching it appends the synthesized summary. -/
theorem autoGenerateSummariesGo_generates
    (sameTime : CounterSummary → CounterSummary → Bool) (ty : String) (th : Nat)
    (c : Int) (sk su : CounterSummary)
    (hsu_mod : su.modifier = "u") (hsu_ty : su.type_name = ty)
    (hsu_th : su.thread = th) (hsu_c : su.cpu = c)
    (hst : sameTime sk su = true) :
    ∀ full todo,
      findSummary full ty "k" th c = some sk →
      findSummary full ty "" th c = none →
      (∃ t1 t2, todo = t1 ++ su :: t2 ∧
        ∀ x ∈ t1, ¬(x.modifier = "u" ∧ x.type_name = ty ∧ x.thread = th ∧ x.cpu = c)) →
      ∃ t ∈ autoGenerateSummariesGo sameTime full todo,
        t.type_name = ty ∧ t.modifier = "" ∧ t.thread = th ∧ t.cpu = c ∧
        t.count = (su.count + sk.count) % 2 ^ 64 ∧ t.auto_generated = true := by
  intro full todo
  induction full, todo using autoGenerateSummariesGo.induct sameTime with
  | case1 full =>
    rintro _ _ ⟨t1, t2, hdec, -⟩
    exact absurd hdec (by simp)
  | case2 full s rest hu other hfk hstime hguard n ih =>
    rintro hk hnone ⟨t1, t2, hdec, ht1⟩
    rw [autoGenerateSummariesGo, if_pos hu]
    simp only [hfk]
    rw [if_pos hstime, if_pos hguard]
    rcases t1 with _ | ⟨x, t1'⟩
    · simp only [List.nil_append] at hdec
      obtain ⟨rfl, rfl⟩ := List.cons.inj hdec
      have hother : other = sk := by
        rw [hsu_ty, hsu_th, hsu_c] at hfk
        rw [hfk] at hk
        exact Option.some.inj hk
      refine ⟨mkAutoSummary s other,
        autoGenerateSummariesGo_mono sameTime _ _ _ (by simp), ?_⟩
      simp [mkAutoSummary, hsu_ty, hsu_th, hsu_c, hother]
    · simp only [List.cons_append] at hdec
      obtain ⟨rfl, hrest⟩ := List.cons.inj hdec
      have hxkey : ¬(s.type_name = ty ∧ s.thread = th ∧ s.cpu = c) := by
        intro hkey
        exact ht1 s (by simp) ⟨hu, hkey.1, hkey.2.1, hkey.2.2⟩
      have hk2 : findSummary (full ++ [mkAutoSummary s other]) ty "k" th c = some sk :=
        findSummary_append_some full _ ty "k" th c sk hk
      have hnone2 : findSummary (full ++ [mkAutoSummary s other]) ty "" th c = none := by
        apply findSummary_append_none full ty "" th c _ hnone
        rintro ⟨hty, -, hth, hc⟩
        exact hxkey ⟨hty, hth, hc⟩
      apply ih hk2 hnone2
      refine ⟨t1', t2 ++ [mkAutoSummary s other], ?_,
        fun y hy => ht1 y (by simp [hy])⟩
      rw [hrest]
      simp
  | case3 full s rest hu other hfk hstime hguard ih =>
    rintro hk hnone ⟨t1, t2, hdec, ht1⟩
    rw [autoGenerateSummariesGo, if_pos hu]
    simp only [hfk]
    rw [if_pos hstime, if_neg hguard]
    rcases t1 with _ | ⟨x, t1'⟩
    · simp only [List.nil_append] at hdec
      obtain ⟨rfl, rfl⟩ := List.cons.inj hdec
      rw [hsu_ty, hsu_th, hsu_c] at hguard
      exact absurd hnone hguard
    · simp only [List.cons_append] at hdec
      obtain ⟨rfl, hrest⟩ := List.cons.inj hdec
      exact ih hk hnone ⟨t1', t2, hrest, fun y hy => ht1 y (by simp [hy])⟩
  | case4 full s rest hu other hfk hstime ih =>
    rintro hk hnone ⟨t1, t2, hdec, ht1⟩
    rw [autoGenerateSummariesGo, if_pos hu]
    simp only [hfk]
    rw [if_neg hstime]
    rcases t1 with _ | ⟨x, t1'⟩
    · simp only [List.nil_append] at hdec
      obtain ⟨rfl, rfl⟩ := List.cons.inj hdec
      rw [hsu_ty, hsu_th, hsu_c] at hfk
      rw [hfk] at hk
      have hother : other = sk := Option.some.inj hk
      rw [hother] at hstime
      exact absurd hst hstime
    · simp only [List.cons_append] at hdec
      obtain ⟨rfl, hrest⟩ := List.cons.inj hdec
      exact ih hk hnone ⟨t1', t2, hrest, fun y hy => ht1 y (by simp [hy])⟩
  | case5 full s rest hu hfk ih =>
    rintro hk hnone ⟨t1, t2, hdec, ht1⟩
    rw [autoGenerateSummariesGo, if_pos hu]
    simp only [hfk]
    rcases t1 with _ | ⟨x, t1'⟩
    · simp only [List.nil_append] at hdec
      obtain ⟨rfl, rfl⟩ := List.cons.inj hdec
      rw [hsu_ty, hsu_th, hsu_c] at hfk
      rw [hfk] at hk
      exact Option.noConfusion hk
    · simp only [List.cons_append] at hdec
      obtain ⟨rfl, hrest⟩ := List.cons.inj hdec
      exact ih hk hnone ⟨t1', t2, hrest, fun y hy => ht1 y (by simp [hy])⟩
  | case6 full s rest hu ih =>
    rintro hk hnone ⟨t1, t2, hdec, ht1⟩
    rw [autoGenerateSummariesGo, if_neg hu]
    rcases t1 with _ | ⟨x, t1'⟩
    · simp only [List.nil_append] at hdec
      obtain ⟨rfl, rfl⟩ := List.cons.inj hdec
      exact absurd hsu_mod hu
    · simp only [List.cons_append] at hdec
      obtain ⟨rfl, hrest⟩ := List.cons.inj hdec
      exact ih hk hnone ⟨t1', t2, hrest, fun y hy => ht1 y (by simp [hy])⟩

/-- Claim C8: a "u" summary with a matching "k" summary at the same (type
name, thread, cpu) key, monitored at the same time and with no existing
empty-modifier summary at that key, makes `AutoGenerateSummaries` emit an
auto-generated empty-modifier summary whose count is exactly the integer sum
of the "u" and "k" counts (the `uint64_t` sum does not wrap under the stated
bound). -/
theorem c8_auto_generated_sum
    (sameTime : CounterSummary → CounterSummary → Bool) (l : List CounterSummary)
    (ty : String) (th : Nat) (c : Int) (su sk : CounterSummary)
    (hu : findSummary l ty "u" th c = some su)
    (hk : findSummary l ty "k" th c = some sk)
    (hst : sameTime sk su = true)
    (hnone : findSummary l ty "" th c = none)
    (hov : su.count + sk.count < 2 ^ 64) :
    ∃ t ∈ autoGenerateSummaries sameTime l,
      t.type_name = ty ∧ t.modifier = "" ∧ t.thread = th ∧ t.cpu = c ∧
      t.count = su.count + sk.count ∧ t.auto_generated = true := by
  rw [findSummary] at hu
  obtain ⟨hpu, t1, t2, hdec, ht1⟩ := find?_decomp _ l su hu
  rw [decide_eq_true_eq] at hpu
  obtain ⟨hsu_ty, hsu_mod, hsu_th, hsu_c⟩ := hpu
  have hgen := autoGenerateSummariesGo_generates sameTime ty th c sk su
    hsu_mod hsu_ty hsu_th hsu_c hst l l hk hnone
    ⟨t1, t2, hdec, ?ht1c⟩
  case ht1c =>
    intro x hx hbad
    have := ht1 x hx
    rw [decide_eq_false_iff_not] at this
    exact this ⟨hbad.2.1, hbad.1, hbad.2.2.1, hbad.2.2.2⟩
  obtain ⟨t, hmem, p1, p2, p3, p4, p5, p6⟩ := hgen
  exact ⟨t, hmem, p1, p2, p3, p4, by rw [p5, Nat.mod_eq_of_lt hov], p6⟩

/-- A user-mode summary for witnesses. -/
def sumU : CounterSummary :=
  { type_name := "cpu-cycles", modifier := "u", group_id := 0, thread := 1,
    cpu := -1, count := 100, runtime_in_ns := 50, scale := 1,
    auto_generated := false }

/-- A kernel-mode summary at the same key for witnesses. -/
def sumK : CounterSummary :=
  { type_name := "cpu-cycles", modifier := "k", group_id := 0, thread := 1,
    cpu := -1, count := 200, runtime_in_ns := 50, scale := 1,
    auto_generated := false }

/-- An already-present empty-modifier summary at the same key. -/
def sumE : CounterSummary :=
  { type_name := "cpu-cycles", modifier := "", group_id := 0, thread := 1,
    cpu := -1, count := 7, runtime_in_ns := 50, scale := 1,
    auto_generated := false }

/-- Witness for `c8_auto_generated_sum`: with a "u" and a "k" summary at one
key, the generated summary counts 100 + 200. -/
theorem c8_witness :
    ∃ t ∈ autoGenerateSummaries (fun _ _ => true) [sumU, sumK],
      t.type_name = "cpu-cycles" ∧ t.modifier = "" ∧ t.thread = 1 ∧
      t.cpu = -1 ∧ t.count = sumU.count + sumK.count ∧ t.auto_generated = true :=
  c8_auto_generated_sum (fun _ _ => true) [sumU, sumK] "cpu-cycles" 1 (-1)
    sumU sumK rfl rfl rfl rfl (by decide)

/-- Witness for `c10_no_overwrite`: with an existing "" summary at the key,
the "" summaries at that key are unchanged by `AutoGenerateSummaries`. -/
theorem c10_witness :
    (autoGenerateSummaries (fun _ _ => true) [sumU, sumK, sumE]).filter
        (emptyModAt "cpu-cycles" 1 (-1)) =
      [sumU, sumK, sumE].filter (emptyModAt "cpu-cycles" 1 (-1)) :=
  c10_no_overwrite (fun _ _ => true) [sumU, sumK, sumE] "cpu-cycles" 1 (-1)
    ⟨sumE, by simp, rfl, rfl, rfl, rfl⟩

end SimpleperfModel
